import Mathlib

/-!
Verification of the lifecycle orchestration and shutdown coordination code of
the fx repository (packages `lifecycle` and `fx`), against its natural-language
specification.

The Go code is shallowly embedded: Go errors are modelled as flattened
`multierr` lists of atomic error codes (`[]` is the `nil` error), execution
contexts as opaque tokens, and hook actions as pure functions from a context to
an error. Each phase additionally returns the trace of hook-action invocations
it performed, so that ordering claims can be stated.
-/

namespace Fx

/-- A Go `error`, modelled as the flattened list of atomic errors that
`go.uber.org/multierr` would hold; `[]` plays the role of `nil`. -/
abbrev Err := List Nat

/-- `multierr.Combine(errs...)`: flattens a list of (possibly nil) errors;
returns the nil error when nothing remains. -/
def combine (errs : List Err) : Err := errs.flatten

/-- `multierr.Append(left, right)`: the combination of two errors, keeping
order; if either side is nil the other is returned, which concatenation
already does. -/
def merrAppend (a b : Err) : Err := a ++ b

/-- A `context.Context`, opaque for the claims at hand: what matters is which
token a hook action receives, so tokens are bare naturals. -/
abbrev Ctx := Nat

/-- `lifecycle.Hook`: a pair of optional start and stop callbacks (the
`caller` diagnostic label plays no role in any claim and is omitted). -/
structure Hook where
  onStart : Option (Ctx → Err)
  onStop : Option (Ctx → Err)

instance : Inhabited Hook := ⟨⟨none, none⟩⟩

/-- An observable hook-action invocation: which hook (by registration index)
ran which phase action, and with which context. -/
inductive Event where
  | start (i : Nat) (c : Ctx)
  | stop (i : Nat) (c : Ctx)
deriving DecidableEq

/-- The context a recorded invocation received. -/
def Event.ctx : Event → Ctx
  | .start _ c => c
  | .stop _ c => c

/-- Whether a recorded invocation is a stop-action invocation. -/
def Event.isStop : Event → Bool
  | .stop _ _ => true
  | .start _ _ => false

/-- `lifecycle.Lifecycle`: the ordered hook registry plus the count of hooks
already started (`numStarted`); the logger is omitted. -/
structure Lifecycle where
  hooks : List Hook
  numStarted : Nat

/-- The loop body of `Lifecycle.Start`: walks the hooks front to back carrying
the registration index `i` and the current `numStarted` value `n`. A hook with
a start action is invoked with `c`; on failure the loop returns that failure
at once, without incrementing `n` for the failing hook. Otherwise `n` is
incremented and the walk continues. Returns the final `numStarted`, the trace
of start-action invocations, and the error. -/
def startLoop : List Hook → Nat → Nat → Ctx → Nat × List Event × Err
  | [], _, n, _ => (n, [], [])
  | h :: rest, i, n, c =>
    match h.onStart with
    | none => startLoop rest (i + 1) (n + 1) c
    | some f =>
      if f c = [] then
        let r := startLoop rest (i + 1) (n + 1) c
        (r.1, Event.start i c :: r.2.1, r.2.2)
      else
        (n, [Event.start i c], f c)

/-- `Lifecycle.Start`: runs the start loop over all hooks starting from the
stored `numStarted`, exactly as the Go range loop does. -/
def Lifecycle.Start (l : Lifecycle) (c : Ctx) : Lifecycle × List Event × Err :=
  let r := startLoop l.hooks 0 l.numStarted c
  ({ l with numStarted := r.1 }, r.2.1, r.2.2)

/-- The Go index expression `l.hooks[m]`: the hook at registration index
`m` (total, with a hook of two absent actions out of range; every use below
stays in range). -/
def hookAt (hooks : List Hook) (m : Nat) : Hook := hooks.getD m default

/-- The loop body of `Lifecycle.Stop`: walks backward from index
`numStarted - 1` down to `0`, decrementing on every step regardless of what
the stop action returns. Hooks without a stop action are skipped; failures of
stop actions are collected (`multierr` flattening makes the collection plain
concatenation, nil contributions vanishing) and the walk continues. -/
def stopLoop (hooks : List Hook) : Nat → Ctx → List Event × Err
  | 0, _ => ([], [])
  | m + 1, c =>
    match (hookAt hooks m).onStop with
    | none => stopLoop hooks m c
    | some f =>
      let r := stopLoop hooks m c
      (Event.stop m c :: r.1, f c ++ r.2)

/-- `Lifecycle.Stop`: runs the stop loop from the stored `numStarted`, which
ends at `0`; returns the combined error of all failing stop actions. -/
def Lifecycle.Stop (l : Lifecycle) (c : Ctx) : Lifecycle × List Event × Err :=
  let r := stopLoop l.hooks l.numStarted c
  ({ l with numStarted := 0 }, r.1, r.2)

/-- The hook at position `h` succeeds on start under context `c`: it either
has no start action or its start action returns the nil error. -/
def startOk (c : Ctx) (h : Hook) : Prop :=
  ∀ f, h.onStart = some f → f c = []

/-- The trace of start-action invocations a fully successful forward walk
produces: one `start` event per hook that has a start action, at its
registration index (offset by `i`), in registration order. -/
def startEvents : List Hook → Nat → Ctx → List Event
  | [], _, _ => []
  | h :: rest, i, c =>
    match h.onStart with
    | none => startEvents rest (i + 1) c
    | some _ => Event.start i c :: startEvents rest (i + 1) c

/-- The trace of stop-action invocations a backward walk from `n` produces:
exactly the indices below `n` whose hook has a stop action, in reverse
registration order. -/
def stopEvents (hooks : List Hook) (n : Nat) (c : Ctx) : List Event :=
  (((List.range n).filter fun m => ((hookAt hooks m).onStop).isSome).reverse).map
    fun m => Event.stop m c

/-- `fx.App`, restricted to the fields the orchestration phase reads: the
sticky construction error `err` and the `lifecycle` registry. (The
construction-time fields are modelled separately by `AppBuild` below.) -/
structure App where
  err : Err
  lifecycle : Lifecycle

/-- `withTimeout(ctx, f)`: the Go code races `f(ctx)` run on a goroutine
against expiry of `ctx`. The race itself is real-time concurrency; the
embedding models the completion branch, in which `f`'s result is returned.
What every claim below uses is which context `f` receives: the same `ctx`,
underived. -/
def withTimeout (c : Ctx) (f : Ctx → α) : α := f c

/-- `App.start` (the lower-case internal method): short-circuits on the sticky
construction error; otherwise runs `Lifecycle.Start` and, on failure, rolls
back with `Lifecycle.Stop` under the same context `c`, combining the start
error with a failing rollback's error via `multierr.Append`. Returns the
updated state, the full invocation trace, and the resulting error. -/
def App.start (app : App) (c : Ctx) : App × List Event × Err :=
  if app.err ≠ [] then (app, [], app.err)
  else
    let r := app.lifecycle.Start c
    if r.2.2 = [] then ({ app with lifecycle := r.1 }, r.2.1, [])
    else
      let s := r.1.Stop c
      if s.2.2 ≠ [] then
        ({ app with lifecycle := s.1 }, r.2.1 ++ s.2.1, merrAppend r.2.2 s.2.2)
      else
        ({ app with lifecycle := s.1 }, r.2.1 ++ s.2.1, r.2.2)

/-- `App.Start`: `withTimeout(ctx, app.start)`. -/
def App.Start (app : App) (c : Ctx) : App × List Event × Err :=
  withTimeout c app.start

/-- `App.Stop`: `withTimeout(ctx, app.lifecycle.Stop)`; the Go method value
mutates the lifecycle through the pointer, so the updated state is returned
explicitly here. -/
def App.Stop (app : App) (c : Ctx) : App × List Event × Err :=
  withTimeout c fun c2 =>
    let r := app.lifecycle.Stop c2
    ({ app with lifecycle := r.1 }, r.2.1, r.2.2)

/-- The orchestration states an `App` can be in: construction (`fx.New`)
delivers a state whose registry has `numStarted = 0`, and the only operations
that touch this state afterwards are `Start` and `Stop`. -/
inductive Reachable : App → Prop where
  | init : ∀ app : App, app.lifecycle.numStarted = 0 → Reachable app
  | stepStart : ∀ (app : App) (c : Ctx), Reachable app → Reachable (app.Start c).1
  | stepStop : ∀ (app : App) (c : Ctx), Reachable app → Reachable (app.Stop c).1

/-- `os.Signal`, restricted to the two signals the code mentions. -/
inductive OsSignal where
  | SIGINT
  | SIGTERM
deriving DecidableEq

/-- One `Done` channel of capacity one: `none` is an empty channel, `some s`
a channel holding the undelivered signal `s`. -/
abbrev Slot := Option OsSignal

/-- The loop body of `App.broadcastSignal`: for each slot, a non-blocking
send. An empty slot receives `sig`; a slot already holding an undelivered
signal is counted in `unsent` and left unchanged; the walk never stops early.
Returns the updated slots and the unsent count. -/
def broadcastLoop (dones : List Slot) (sig : OsSignal) : List Slot × Nat :=
  match dones with
  | [] => ([], 0)
  | d :: rest =>
    let r := broadcastLoop rest sig
    match d with
    | none => (some sig :: r.1, r.2)
    | some x => (some x :: r.1, r.2 + 1)

/-- `App.broadcastSignal`: after attempting delivery to every slot, succeeds
only if `unsent = 0`; otherwise reports the signal, the unsent count and the
total number of slots (the content of the formatted Go error). -/
def broadcastSignal (dones : List Slot) (sig : OsSignal) :
    List Slot × Option (OsSignal × Nat × Nat) :=
  let r := broadcastLoop dones sig
  (r.1, if r.2 = 0 then none else some (sig, r.2, dones.length))

/-- `fx.ShutdownOption`: no option is implemented and `apply` is never
called, so options are opaque tokens. -/
abbrev ShutdownOpt := Nat

/-- `shutdowner.Shutdown(opts...)`: broadcasts `SIGTERM` to the listener
slots; the options parameter is bound but never consulted, exactly as in the
Go method body. -/
def shutdownerShutdown (dones : List Slot) (opts : List ShutdownOpt) :
    List Slot × Option (OsSignal × Nat × Nat) :=
  broadcastSignal dones OsSignal.SIGTERM

/-- An `fx.Option` as fed to `fx.New`, restricted to the four kinds the
construction claims are about. A constructor passed to `Provide` is modelled
by its registration outcome in the container (nil on success); a function
passed to `Invoke` by its invocation outcome. -/
inductive FxOpt where
  | err (errs : List Err)
  | errorHook (handlers : List Nat)
  | provide (cs : List Err)
  | invoke (fs : List Err)

/-- The construction-time fields of `fx.App`: the sticky error, the
registered error handlers (by id), and the pending provide/invoke lists. -/
structure AppBuild where
  err : Err
  errorHooks : List Nat
  provides : List Err
  invokes : List Err

/-- `Option.apply` for each option kind: `Error` combines its arguments and
appends them to the existing `app.err` via `multierr.Append`; the other three
merely append to their lists. -/
def applyOpt (app : AppBuild) : FxOpt → AppBuild
  | .err es => { app with err := merrAppend app.err (combine es) }
  | .errorHook hs => { app with errorHooks := app.errorHooks ++ hs }
  | .provide cs => { app with provides := app.provides ++ cs }
  | .invoke fs => { app with invokes := app.invokes ++ fs }

/-- `App.provide`: returns immediately if the sticky error is already set;
otherwise records the constructor's registration outcome `p` (nil when
registration succeeds). -/
def provideStep (e : Err) (p : Err) : Err :=
  if e ≠ [] then e else p

/-- The provide phase of `fx.New`: `App.provide` applied to each pending
constructor in order. The three built-in provides (`Lifecycle`, the
shutdowner, the dot graph) always register successfully and so leave the
state unchanged. -/
def runProvides (e : Err) : List Err → Err
  | [] => e
  | p :: ps => runProvides (provideStep e p) ps

/-- `App.executeInvokes`: runs the invocations in order and returns the first
failure, or nil when every invocation succeeds. -/
def executeInvokes : List Err → Err
  | [] => []
  | f :: fs => if f = [] then executeInvokes fs else f

/-- `fx.New`: applies all options in order, runs the provide phase, and — only
when no error is set by then — runs the invocations; an invocation failure is
stored as the sticky error and handed to every registered error handler in
registration order. Returns the built state together with the list of
(handler, error) calls that `errorHandlerList.HandleError` performed. -/
def New (opts : List FxOpt) : AppBuild × List (Nat × Err) :=
  let app := opts.foldl applyOpt ⟨[], [], [], []⟩
  let app2 : AppBuild := { app with err := runProvides app.err app.provides }
  if app2.err ≠ [] then (app2, [])
  else
    let e2 := executeInvokes app2.invokes
    if e2 = [] then (app2, [])
    else ({ app2 with err := e2 }, app2.errorHooks.map fun h => (h, e2))

/-- The first non-nil error of a list, or nil. -/
def firstNonEmpty : List Err → Err
  | [] => []
  | e :: es => if e = [] then firstNonEmpty es else e

/-- The errors contributed by `Error` options, in option order, each already
combined. -/
def optionErrs (opts : List FxOpt) : List Err :=
  opts.filterMap fun o =>
    match o with
    | .err es => some (combine es)
    | _ => none

/-- Modelled from the spec (C9's wording, for comparison with `New`): the
first error encountered during construction — across `Error` options in
option order, then provide registrations, then invocations — wins and is the
sticky construction error, never modified afterwards. -/
def constructionErrorSpec (opts : List FxOpt) : Err :=
  let app := opts.foldl applyOpt ⟨[], [], [], []⟩
  firstNonEmpty (optionErrs opts ++ app.provides ++ [executeInvokes app.invokes])

/-- The claim that whenever construction ends with an error, every registered
error observer was invoked with that terminal error, in registration order,
exactly once (C8's wording, instantiated at an option list). -/
def observersNotified (opts : List FxOpt) : Prop :=
  (New opts).1.err ≠ [] →
    (New opts).2 = (New opts).1.errorHooks.map fun h => (h, (New opts).1.err)

/-- The claim that a failing `App.start`'s automatic rollback runs under a
context other than the start phase's context — a child derived for the stop
deadline would be a fresh token (C7's wording, instantiated at an app and a
start context). -/
def rollbackUsesStopCtx (app : App) (c : Ctx) : Prop :=
  ∀ ev ∈ (App.Start app c).2.1, ev.isStop = true → ev.ctx ≠ c

/-! ### Lemmas about the start and stop loops -/

theorem startLoop_ok (c : Ctx) :
    ∀ (hooks : List Hook) (i n : Nat), (∀ h ∈ hooks, startOk c h) →
      startLoop hooks i n c = (n + hooks.length, startEvents hooks i c, []) := by
  intro hooks
  induction hooks with
  | nil => intro i n _; simp [startLoop, startEvents]
  | cons h rest ih =>
    intro i n hall
    have hh := hall h (List.mem_cons_self h rest)
    have hrest : ∀ g ∈ rest, startOk c g := fun g hg => hall g (List.mem_cons_of_mem h hg)
    have hlen : n + 1 + rest.length = n + (h :: rest).length := by
      simp [List.length_cons]; omega
    cases hs : h.onStart with
    | none =>
      simp only [startLoop, hs, startEvents]
      rw [ih (i + 1) (n + 1) hrest, hlen]
    | some f =>
      have hf : f c = [] := hh f hs
      simp only [startLoop, hs, hf, if_pos, startEvents]
      rw [ih (i + 1) (n + 1) hrest, hlen]

theorem startLoop_fail (c : Ctx) (hk : Hook) (f : Ctx → Err) (post : List Hook)
    (hks : hk.onStart = some f) (hkf : f c ≠ []) :
    ∀ (pre : List Hook) (i n : Nat), (∀ h ∈ pre, startOk c h) →
      startLoop (pre ++ hk :: post) i n c =
        (n + pre.length, startEvents pre i c ++ [Event.start (i + pre.length) c], f c) := by
  intro pre
  induction pre with
  | nil =>
    intro i n _
    simp [startLoop, startEvents, hks, hkf]
  | cons h rest ih =>
    intro i n hall
    have hh := hall h (List.mem_cons_self h rest)
    have hrest : ∀ g ∈ rest, startOk c g := fun g hg => hall g (List.mem_cons_of_mem h hg)
    have hlen : n + 1 + rest.length = n + (h :: rest).length := by
      simp [List.length_cons]; omega
    have hidx : i + 1 + rest.length = i + (h :: rest).length := by
      simp [List.length_cons]; omega
    cases hs : h.onStart with
    | none =>
      simp only [List.cons_append, List.append_eq, startLoop, hs, startEvents]
      rw [ih (i + 1) (n + 1) hrest, hlen, hidx]
    | some g =>
      have hg : g c = [] := hh g hs
      simp only [List.cons_append, List.append_eq, startLoop, hs, hg, if_pos, startEvents]
      rw [ih (i + 1) (n + 1) hrest, hlen, hidx]

theorem startEvents_mem (c : Ctx) :
    ∀ (hooks : List Hook) (i j : Nat) (c' : Ctx),
      Event.start j c' ∈ startEvents hooks i c → i ≤ j ∧ j < i + hooks.length := by
  intro hooks
  induction hooks with
  | nil => intro i j c' hm; simp [startEvents] at hm
  | cons h rest ih =>
    intro i j c' hm
    cases hs : h.onStart with
    | none =>
      simp only [startEvents, hs] at hm
      have := ih (i + 1) j c' hm
      constructor <;> [omega; (simp [List.length_cons]; omega)]
    | some f =>
      simp only [startEvents, hs, List.mem_cons] at hm
      rcases hm with h1 | h2
      · have : j = i := by injection h1
        constructor <;> [omega; (simp [List.length_cons]; omega)]
      · have := ih (i + 1) j c' h2
        constructor <;> [omega; (simp [List.length_cons]; omega)]

theorem stopEvents_succ (hooks : List Hook) (m : Nat) (c : Ctx) :
    stopEvents hooks (m + 1) c =
      (if ((hookAt hooks m).onStop).isSome then [Event.stop m c] else []) ++
        stopEvents hooks m c := by
  simp only [stopEvents, List.range_succ, List.filter_append, List.reverse_append,
    List.map_append]
  cases hs : (hookAt hooks m).onStop <;> simp [hs]

theorem stopLoop_trace (hooks : List Hook) (c : Ctx) :
    ∀ n, (stopLoop hooks n c).1 = stopEvents hooks n c := by
  intro n
  induction n with
  | zero => rfl
  | succ m ih =>
    rw [stopEvents_succ]
    cases hs : (hookAt hooks m).onStop with
    | none => simp [stopLoop, hs, ih]
    | some f => simp [stopLoop, hs, ih]

theorem startLoop_ctx (c : Ctx) :
    ∀ (hooks : List Hook) (i n : Nat) (ev : Event),
      ev ∈ (startLoop hooks i n c).2.1 → ev.ctx = c := by
  intro hooks
  induction hooks with
  | nil => intro i n ev hm; simp [startLoop] at hm
  | cons h rest ih =>
    intro i n ev hm
    cases hs : h.onStart with
    | none =>
      simp only [startLoop, hs] at hm
      exact ih (i + 1) (n + 1) ev hm
    | some f =>
      simp only [startLoop, hs] at hm
      by_cases hf : f c = []
      · simp only [hf, if_pos, List.mem_cons] at hm
        rcases hm with h1 | h2
        · subst h1; rfl
        · exact ih (i + 1) (n + 1) ev h2
      · simp only [if_neg hf, List.mem_singleton] at hm
        subst hm; rfl

theorem stopLoop_ctx (hooks : List Hook) (c : Ctx) :
    ∀ (n : Nat) (ev : Event), ev ∈ (stopLoop hooks n c).1 → ev.ctx = c := by
  intro n
  induction n with
  | zero => intro ev hm; simp [stopLoop] at hm
  | succ m ih =>
    intro ev hm
    cases hs : (hookAt hooks m).onStop with
    | none =>
      simp only [stopLoop, hs] at hm
      exact ih ev hm
    | some f =>
      simp only [stopLoop, hs, List.mem_cons] at hm
      rcases hm with h1 | h2
      · subst h1; rfl
      · exact ih ev h2

/-! ### Helper lemmas about `App.start` and `App.Stop` -/

theorem start_preserves_err (app : App) (c : Ctx) : (app.Start c).1.err = app.err := by
  simp only [App.Start, withTimeout, App.start]
  split
  · rfl
  · split
    · rfl
    · split <;> rfl

theorem start_stuck (app : App) (c : Ctx) (h : app.err ≠ []) :
    app.Start c = (app, [], app.err) := by
  simp [App.Start, withTimeout, App.start, h]

theorem stop_numStarted (app : App) (c : Ctx) : (app.Stop c).1.lifecycle.numStarted = 0 :=
  rfl

/-- The orchestration invariant behind the short-circuit: once the sticky
construction error is set, no reachable state ever has a started hook, since
`Start` refuses to run the registry. -/
theorem reachable_invariant {app : App} (hr : Reachable app) :
    app.err ≠ [] → app.lifecycle.numStarted = 0 := by
  induction hr with
  | init a h0 => intro _; exact h0
  | stepStart a c _ ih =>
    intro hne
    rw [start_preserves_err] at hne
    rw [start_stuck a c hne]
    exact ih hne
  | stepStop a c _ _ => intro _; exact stop_numStarted a c

/-! ### Concrete hooks and apps used by witnesses and counterexamples -/

/-- A hook with no start action and a succeeding stop action. -/
def hookStopOnly : Hook := ⟨none, some fun _ => []⟩

/-- A hook whose start action succeeds and whose stop action succeeds. -/
def hookBoth : Hook := ⟨some fun _ => [], some fun _ => []⟩

/-- A hook whose start action fails with error `[3]` and that has no stop
action. -/
def hookStartFail : Hook := ⟨some fun _ => [3], none⟩

/-- A hook whose start action succeeds and whose stop action fails with
error `[9]`. -/
def hookStopFail : Hook := ⟨some fun _ => [], some fun _ => [9]⟩

theorem hookStopOnly_ok (c : Ctx) : startOk c hookStopOnly :=
  fun _ hf => Option.noConfusion hf

theorem hookBoth_ok (c : Ctx) : startOk c hookBoth := by
  intro f hf
  injection hf with h1
  subst h1
  rfl

theorem hookStopFail_ok (c : Ctx) : startOk c hookStopFail := by
  intro f hf
  injection hf with h1
  subst h1
  rfl

/-! ### Claims C1 to C4: the hook registry and phase executor -/

/-- Claim C1: for a hook sequence `pre ++ hk :: post` in which every hook of
`pre` starts successfully and `hk`'s start action fails during `RunStart`
(`Lifecycle.Start`), the failure is returned, `numStarted` ends at
`pre.length` (not incremented for the failing hook), the invocation trace is
exactly the start actions of `pre` followed by the failing invocation — so no
start action of any later hook runs, and every started index is at most
`pre.length` — and a subsequent `RunStop` invokes stop actions exactly for the
hooks of `pre` that have one, in reverse registration order. -/
theorem start_failure_short_circuits (pre : List Hook) (hk : Hook) (post : List Hook)
    (f : Ctx → Err) (c1 c2 : Ctx)
    (hpre : ∀ h ∈ pre, startOk c1 h) (hks : hk.onStart = some f) (hkf : f c1 ≠ []) :
    (Lifecycle.Start ⟨pre ++ hk :: post, 0⟩ c1).2.2 = f c1 ∧
    (Lifecycle.Start ⟨pre ++ hk :: post, 0⟩ c1).1.numStarted = pre.length ∧
    (Lifecycle.Start ⟨pre ++ hk :: post, 0⟩ c1).2.1 =
      startEvents pre 0 c1 ++ [Event.start pre.length c1] ∧
    (∀ j c', Event.start j c' ∈ (Lifecycle.Start ⟨pre ++ hk :: post, 0⟩ c1).2.1 →
      j ≤ pre.length) ∧
    ((Lifecycle.Start ⟨pre ++ hk :: post, 0⟩ c1).1.Stop c2).2.1 =
      stopEvents (pre ++ hk :: post) pre.length c2 := by
  have hrun := startLoop_fail c1 hk f post hks hkf pre 0 0 hpre
  refine ⟨?_, ?_, ?_, ?_, ?_⟩
  · simp [Lifecycle.Start, hrun]
  · simp [Lifecycle.Start, hrun]
  · simp [Lifecycle.Start, hrun]
  · intro j c' hm
    simp only [Lifecycle.Start, hrun, Nat.zero_add] at hm
    rw [List.mem_append] at hm
    rcases hm with h1 | h2
    · have := startEvents_mem c1 pre 0 j c' h1
      omega
    · rw [List.mem_singleton] at h2
      injection h2 with h3 h4
      omega
  · simp [Lifecycle.Start, Lifecycle.Stop, hrun, stopLoop_trace]

/-- Claim C1 witness: one stop-only hook, then a hook whose start fails with
`[3]`, then a hook with both actions; start context `0`, stop context `1`. -/
theorem start_failure_short_circuits_witness :
    (Lifecycle.Start ⟨[hookStopOnly] ++ hookStartFail :: [hookBoth], 0⟩ 0).2.2 =
      (fun _ => [3]) 0 ∧
    (Lifecycle.Start ⟨[hookStopOnly] ++ hookStartFail :: [hookBoth], 0⟩ 0).1.numStarted =
      [hookStopOnly].length ∧
    (Lifecycle.Start ⟨[hookStopOnly] ++ hookStartFail :: [hookBoth], 0⟩ 0).2.1 =
      startEvents [hookStopOnly] 0 0 ++ [Event.start [hookStopOnly].length 0] ∧
    (∀ j c', Event.start j c' ∈
      (Lifecycle.Start ⟨[hookStopOnly] ++ hookStartFail :: [hookBoth], 0⟩ 0).2.1 →
      j ≤ [hookStopOnly].length) ∧
    ((Lifecycle.Start ⟨[hookStopOnly] ++ hookStartFail :: [hookBoth], 0⟩ 0).1.Stop 1).2.1 =
      stopEvents ([hookStopOnly] ++ hookStartFail :: [hookBoth]) [hookStopOnly].length 1 :=
  start_failure_short_circuits [hookStopOnly] hookStartFail [hookBoth] (fun _ => [3]) 0 1
    (by intro h hm; rw [List.mem_singleton] at hm; subst hm; exact hookStopOnly_ok 0)
    rfl (by decide)

/-- Claim C2: for a hook sequence in which every start action succeeds,
`RunStart` succeeds having started everything, and a subsequent `Stop`
invokes the stop actions of exactly the hooks that have one, in exactly the
reverse of registration order (`stopEvents` over all indices), ending with
`numStarted = 0` — the trace and the final count are as given no matter what
the stop actions return. -/
theorem stop_reverse_order (hooks : List Hook) (c1 c2 : Ctx)
    (hok : ∀ h ∈ hooks, startOk c1 h) :
    (Lifecycle.Start ⟨hooks, 0⟩ c1).2.2 = [] ∧
    (Lifecycle.Start ⟨hooks, 0⟩ c1).1.numStarted = hooks.length ∧
    ((Lifecycle.Start ⟨hooks, 0⟩ c1).1.Stop c2).2.1 = stopEvents hooks hooks.length c2 ∧
    ((Lifecycle.Start ⟨hooks, 0⟩ c1).1.Stop c2).1.numStarted = 0 := by
  have hrun := startLoop_ok c1 hooks 0 0 hok
  refine ⟨?_, ?_, ?_, ?_⟩
  · simp [Lifecycle.Start, hrun]
  · simp [Lifecycle.Start, hrun]
  · simp [Lifecycle.Start, Lifecycle.Stop, hrun, stopLoop_trace]
  · simp [Lifecycle.Start, Lifecycle.Stop, hrun]

/-- Claim C2 witness: a hook with both actions, a stop-only hook and a hook
whose stop action fails, all starting successfully. -/
theorem stop_reverse_order_witness :
    (Lifecycle.Start ⟨[hookBoth, hookStopOnly, hookStopFail], 0⟩ 0).2.2 = [] ∧
    (Lifecycle.Start ⟨[hookBoth, hookStopOnly, hookStopFail], 0⟩ 0).1.numStarted =
      [hookBoth, hookStopOnly, hookStopFail].length ∧
    ((Lifecycle.Start ⟨[hookBoth, hookStopOnly, hookStopFail], 0⟩ 0).1.Stop 1).2.1 =
      stopEvents [hookBoth, hookStopOnly, hookStopFail]
        [hookBoth, hookStopOnly, hookStopFail].length 1 ∧
    ((Lifecycle.Start ⟨[hookBoth, hookStopOnly, hookStopFail], 0⟩ 0).1.Stop 1).1.numStarted =
      0 :=
  stop_reverse_order [hookBoth, hookStopOnly, hookStopFail] 0 1 (by
    intro h hm
    rcases List.mem_cons.mp hm with h1 | hm2
    · subst h1; exact hookBoth_ok 0
    rcases List.mem_cons.mp hm2 with h2 | hm3
    · subst h2; exact hookStopOnly_ok 0
    rw [List.mem_singleton] at hm3
    subst hm3; exact hookStopFail_ok 0)

/-- Claim C3: when `RunStart` fails inside `App.Start`, the rollback
`RunStop` is run automatically (the trace is the start trace followed by the
rollback's stop trace), and the returned error is exactly the original start
error when the rollback succeeds, and the `multierr` combination of the start
error followed by the rollback error when the rollback also fails. -/
theorem start_rollback_combined (app : App) (c : Ctx)
    (h0 : app.err = []) (hf : (app.lifecycle.Start c).2.2 ≠ []) :
    (App.Start app c).2.2 =
      (if ((app.lifecycle.Start c).1.Stop c).2.2 = [] then (app.lifecycle.Start c).2.2
       else merrAppend (app.lifecycle.Start c).2.2 (((app.lifecycle.Start c).1.Stop c).2.2)) ∧
    (App.Start app c).2.1 =
      (app.lifecycle.Start c).2.1 ++ ((app.lifecycle.Start c).1.Stop c).2.1 := by
  simp only [App.Start, withTimeout, App.start, h0]
  rw [if_neg (by simp), if_neg hf]
  by_cases hs : ((app.lifecycle.Start c).1.Stop c).2.2 = []
  · rw [if_neg (fun hn => hn hs), if_pos hs]
    exact ⟨rfl, rfl⟩
  · rw [if_pos hs, if_neg hs]
    exact ⟨rfl, rfl⟩

/-- Claim C3 witness: a hook whose stop action fails with `[9]` followed by a
hook whose start fails with `[3]`; the rollback fails, so the result combines
both errors. -/
theorem start_rollback_combined_witness :
    (App.Start ⟨[], ⟨[hookStopFail, hookStartFail], 0⟩⟩ 0).2.2 =
      (if ((Lifecycle.Start ⟨[hookStopFail, hookStartFail], 0⟩ 0).1.Stop 0).2.2 = []
       then (Lifecycle.Start ⟨[hookStopFail, hookStartFail], 0⟩ 0).2.2
       else merrAppend (Lifecycle.Start ⟨[hookStopFail, hookStartFail], 0⟩ 0).2.2
         (((Lifecycle.Start ⟨[hookStopFail, hookStartFail], 0⟩ 0).1.Stop 0).2.2)) ∧
    (App.Start ⟨[], ⟨[hookStopFail, hookStartFail], 0⟩⟩ 0).2.1 =
      (Lifecycle.Start ⟨[hookStopFail, hookStartFail], 0⟩ 0).2.1 ++
        ((Lifecycle.Start ⟨[hookStopFail, hookStartFail], 0⟩ 0).1.Stop 0).2.1 :=
  start_rollback_combined ⟨[], ⟨[hookStopFail, hookStartFail], 0⟩⟩ 0 rfl (by decide)

/-- Claim C4: `Stop` is idempotent — after one `Lifecycle.Stop` completes,
`numStarted` is `0`, so a second consecutive call performs zero hook
invocations, returns the nil error, and leaves the state unchanged. -/
theorem stop_idempotent (l : Lifecycle) (c1 c2 : Ctx) :
    ((l.Stop c1).1.Stop c2) = ((l.Stop c1).1, [], []) :=
  rfl

/-! ### Claim C5: the sticky construction error blocks the phases -/

/-- Claim C5: in every reachable orchestration state whose sticky
construction error is set, `Start` returns the construction error immediately
with an unchanged state and an empty invocation trace, and `Stop` performs no
hook work either (empty trace) and returns success — because `Start` never
let any hook start. -/
theorem construction_error_blocks (app : App) (c1 c2 : Ctx)
    (hr : Reachable app) (he : app.err ≠ []) :
    app.Start c1 = (app, [], app.err) ∧
    (app.Stop c2).2.1 = [] ∧ (app.Stop c2).2.2 = [] := by
  have h0 := reachable_invariant hr he
  refine ⟨start_stuck app c1 he, ?_, ?_⟩ <;>
    simp [App.Stop, withTimeout, Lifecycle.Stop, h0, stopLoop]

/-- Claim C5 witness: an app fresh out of construction carrying error `[7]`
and one registered (never started) hook. -/
theorem construction_error_blocks_witness :
    App.Start ⟨[7], ⟨[hookBoth], 0⟩⟩ 0 = (⟨[7], ⟨[hookBoth], 0⟩⟩, [], [7]) ∧
    (App.Stop ⟨[7], ⟨[hookBoth], 0⟩⟩ 1).2.1 = [] ∧
    (App.Stop ⟨[7], ⟨[hookBoth], 0⟩⟩ 1).2.2 = [] :=
  construction_error_blocks ⟨[7], ⟨[hookBoth], 0⟩⟩ 0 1
    (Reachable.init _ rfl) (by decide)

/-! ### Claim C6 and C10: the shutdown broadcaster -/

theorem broadcastLoop_eq (sig : OsSignal) :
    ∀ dones : List Slot, broadcastLoop dones sig =
      (dones.map fun s => some (s.getD sig), dones.countP fun s => s.isSome) := by
  intro dones
  induction dones with
  | nil => rfl
  | cons d rest ih =>
    cases d <;> simp [broadcastLoop, ih, List.countP_cons]

/-- Claim C6: broadcasting to `N` listener slots of which `M` already hold an
undelivered signal attempts a delivery to every slot — each free slot ends up
holding the signal, each full slot keeps its old content — succeeds exactly
when `M = 0`, and otherwise reports exactly `M` of `N` slots as unsignaled. -/
theorem broadcast_reports_unsent (dones : List Slot) (sig : OsSignal) :
    (broadcastSignal dones sig).1 = (dones.map fun s => some (s.getD sig)) ∧
    (broadcastSignal dones sig).2 =
      (if dones.countP (fun s => s.isSome) = 0 then none
       else some (sig, dones.countP (fun s => s.isSome), dones.length)) ∧
    ((broadcastSignal dones sig).2 = none ↔ dones.countP (fun s => s.isSome) = 0) := by
  refine ⟨?_, ?_, ?_⟩
  · simp [broadcastSignal, broadcastLoop_eq]
  · simp [broadcastSignal, broadcastLoop_eq]
  · simp only [broadcastSignal, broadcastLoop_eq]
    by_cases hc : dones.countP (fun s => s.isSome) = 0 <;> simp [hc]

/-- Claim C10: `shutdowner.Shutdown` ignores its options entirely — any two
option lists produce the same result and slot contents, and the call is
exactly a broadcast of `SIGTERM`. -/
theorem shutdown_ignores_options (dones : List Slot) (o1 o2 : List ShutdownOpt) :
    shutdownerShutdown dones o1 = shutdownerShutdown dones o2 ∧
    shutdownerShutdown dones o1 = broadcastSignal dones OsSignal.SIGTERM :=
  ⟨rfl, rfl⟩

/-! ### Claim C7: which context the automatic rollback runs under -/

/-- An app whose first hook starts and stops cleanly and whose second hook
fails to start, so that `App.Start` triggers a rollback that invokes hook 0's
stop action. -/
def rollbackApp : App := ⟨[], ⟨[hookBoth, ⟨some fun _ => [2], none⟩], 0⟩⟩

/-- Claim C7 counterexample: starting `rollbackApp` under context `5` rolls
back by invoking hook 0's stop action with that same context `5`, so the
rollback does not run under a separate stop-deadline context. -/
theorem rollback_ctx_counterexample : ¬ rollbackUsesStopCtx rollbackApp 5 := by
  intro h
  exact h (Event.stop 0 5) (by decide) rfl rfl

/-- Claim C7 (amended): when `RunStart` fails inside `App.Start`, the
automatic rollback runs `RunStop` under the very context that was passed to
the start phase — every hook-action invocation of `App.Start`, the rollback
stop actions included, receives exactly that context; no stop-timeout child
context is derived. -/
theorem rollback_under_start_ctx (app : App) (c : Ctx) (ev : Event)
    (hm : ev ∈ (App.Start app c).2.1) : ev.ctx = c := by
  simp only [App.Start, withTimeout, App.start] at hm
  split at hm
  · simp at hm
  · split at hm
    · exact startLoop_ctx c app.lifecycle.hooks 0 app.lifecycle.numStarted ev hm
    · split at hm <;>
      · rw [List.mem_append] at hm
        rcases hm with h1 | h2
        · exact startLoop_ctx c app.lifecycle.hooks 0 app.lifecycle.numStarted ev h1
        · exact stopLoop_ctx _ c _ ev h2

/-- Claim C7 witness: the rollback stop invocation of `rollbackApp` under
context `5` indeed carries context `5`. -/
theorem rollback_under_start_ctx_witness :
    Event.stop 0 5 ∈ (App.Start rollbackApp 5).2.1 ∧ (Event.stop 0 5).ctx = 5 :=
  ⟨by decide, rollback_under_start_ctx rollbackApp 5 (Event.stop 0 5) (by decide)⟩

/-! ### Lemmas about the construction pipeline (`fx.New`) -/

theorem applyOpt_foldl_err :
    ∀ (opts : List FxOpt) (a : AppBuild),
      (opts.foldl applyOpt a).err = a.err ++ combine (optionErrs opts) := by
  intro opts
  induction opts with
  | nil => intro a; simp [optionErrs, combine]
  | cons o rest ih =>
    intro a
    cases o <;>
      simp [List.foldl_cons, applyOpt, ih, optionErrs, combine, merrAppend,
        List.append_assoc]

theorem runProvides_ne (ps : List Err) :
    ∀ e : Err, e ≠ [] → runProvides e ps = e := by
  induction ps with
  | nil => intro e _; rfl
  | cons p rest ih =>
    intro e he
    simp only [runProvides, provideStep, if_pos he]
    exact ih e he

theorem runProvides_nil : ∀ ps : List Err, runProvides [] ps = firstNonEmpty ps := by
  intro ps
  induction ps with
  | nil => rfl
  | cons p rest ih =>
    simp only [runProvides, firstNonEmpty]
    have hps : provideStep [] p = p := by simp [provideStep]
    rw [hps]
    by_cases hp : p = []
    · subst hp
      rw [if_pos rfl]
      exact ih
    · rw [if_neg hp]
      exact runProvides_ne rest p hp

theorem firstNonEmpty_append (xs ys : List Err) :
    firstNonEmpty (xs ++ ys) =
      (if firstNonEmpty xs = [] then firstNonEmpty ys else firstNonEmpty xs) := by
  induction xs with
  | nil => simp [firstNonEmpty]
  | cons x rest ih =>
    by_cases hx : x = []
    · subst hx; simpa [firstNonEmpty] using ih
    · simp [firstNonEmpty, hx]

/-! ### Claims C8 and C9: error observers and the sticky error -/

/-- Claim C8 counterexample: with one error observer registered and one
`Error` option, construction ends with the sticky error `[1]` but the observer
is never invoked — `New` returns before `HandleError` runs, so observers are
not notified of every construction failure. -/
theorem observers_counterexample :
    ¬ observersNotified [FxOpt.errorHook [0], FxOpt.err [[1]]] := by
  intro h
  exact absurd (h (by decide)) (by decide)

/-- Claim C8 (amended): the registered error observers are invoked — each
exactly once, in registration order, with the terminal error — exactly when
the construction pipeline reaches the invocation phase (no error from option
application or a provide registration) and an invocation fails; in every
other case, a start failure included, no observer is invoked. -/
theorem observers_only_on_invoke_failure (opts : List FxOpt) :
    (New opts).2 =
      (if runProvides (opts.foldl applyOpt ⟨[], [], [], []⟩).err
            (opts.foldl applyOpt ⟨[], [], [], []⟩).provides = [] ∧
          executeInvokes (opts.foldl applyOpt ⟨[], [], [], []⟩).invokes ≠ []
       then (opts.foldl applyOpt ⟨[], [], [], []⟩).errorHooks.map
              fun h => (h, executeInvokes (opts.foldl applyOpt ⟨[], [], [], []⟩).invokes)
       else []) := by
  simp only [New]
  by_cases h1 : runProvides (opts.foldl applyOpt ⟨[], [], [], []⟩).err
      (opts.foldl applyOpt ⟨[], [], [], []⟩).provides = []
  · by_cases h2 : executeInvokes (opts.foldl applyOpt ⟨[], [], [], []⟩).invokes = [] <;>
      simp [h1, h2]
  · simp [h1]

/-- Claim C9 counterexample: two `Error` options `[1]` and `[2]` leave the
sticky error `[1, 2]`, not the first error `[1]` — the first error is modified
by the later one, against the claim's first-wins reading. -/
theorem first_error_counterexample :
    ¬ (New [FxOpt.err [[1]], FxOpt.err [[2]]]).1.err =
        constructionErrorSpec [FxOpt.err [[1]], FxOpt.err [[2]]] := by
  decide

/-- Claim C9 (amended): errors from `Error` options accumulate — after option
application the sticky error is the ordered `multierr` combination of every
`Error` option's errors. From then on the first error wins: a sticky error
set by the options is never modified by provides or invocations; otherwise the
first failing provide registration sets it and the invocations are skipped;
otherwise the first failing invocation sets it. -/
theorem construction_error_first_wins (opts : List FxOpt) :
    (opts.foldl applyOpt ⟨[], [], [], []⟩).err = combine (optionErrs opts) ∧
    (New opts).1.err =
      (if (opts.foldl applyOpt ⟨[], [], [], []⟩).err ≠ []
       then (opts.foldl applyOpt ⟨[], [], [], []⟩).err
       else firstNonEmpty ((opts.foldl applyOpt ⟨[], [], [], []⟩).provides ++
              [executeInvokes (opts.foldl applyOpt ⟨[], [], [], []⟩).invokes])) := by
  refine ⟨by simpa using applyOpt_foldl_err opts ⟨[], [], [], []⟩, ?_⟩
  simp only [New]
  by_cases he : (opts.foldl applyOpt ⟨[], [], [], []⟩).err = []
  · rw [he, runProvides_nil, firstNonEmpty_append]
    by_cases hp : firstNonEmpty (opts.foldl applyOpt ⟨[], [], [], []⟩).provides = []
    · rw [hp]
      by_cases hi : executeInvokes (opts.foldl applyOpt ⟨[], [], [], []⟩).invokes = [] <;>
        simp [hi, firstNonEmpty]
    · simp [hp]
  · rw [runProvides_ne _ _ he]
    simp [he]

end Fx
